import Mathlib

/-!
Verification of the seesus SDG classifier (`seesus/seesus.py`).

The module identifies UN Sustainable Development Goals (SDGs) and their
targets in text, categorizes targets into social / environmental / economic
sustainability, labels ids with descriptions, and lets a user read and edit
the regular-expression match catalog.

The static data tables (`SDG_keys`, `see_keys`, `goal_desc`, `tar_desc`) are
imported by the source from sibling data modules and are treated here as
parameters; the regular-expression engine (`re.search` with `IGNORECASE`) is
likewise abstracted as a boolean predicate on (pattern, text). All control
flow, deduplication, aggregation and mutation logic is translated directly
from the Python source.
-/

namespace Seesus

/-- One entry of the `SDG_keys` catalog: the dictionary
`\x7b"SDG_id": ..., "SDG_keywords": ..., "match_type": ...\x7d` in the source. -/
structure Rule where
  SDG_id : String
  SDG_keywords : String
  match_type : String
deriving DecidableEq

/-- A Python argument passed to `id_sus`: either a string or some non-string
value (`isinstance(text, str)` is the only inspection the source performs on
non-strings). -/
inductive PyInput where
  | str (s : String)
  | nonStr
deriving DecidableEq

/-- Character-level model of Python `s.split("_")[0]`: the characters of `s`
before the first underscore (all of `s` when there is none). -/
def charsBeforeUnd : List Char → List Char
  | [] => []
  | c :: cs => if c = '_' then [] else c :: charsBeforeUnd cs

/-- Model of `sdg_id.split("_")[0]` in `id_sus` (line 29 of the source). -/
def goalIdOf (s : String) : String := ⟨charsBeforeUnd s.toList⟩

/-- `id_sus(text)` from the source. `search kw text` models
`re.search(kw, text, re.IGNORECASE)` being non-None; `SDG_keys` is the
catalog the source imports. The Python loop appends, for every catalog item
whose keywords match, the goal prefix to `sdgs`, the id to `targets` and the
match type to `matches`; each list is then deduplicated with `list(set(...))`
(modelled by `List.dedup`, which keeps one representative per element). A
non-string input raises `ValueError("Input must be a string.")`, modelled as
`Except.error`. -/
def id_sus (search : String → String → Bool) (SDG_keys : List Rule)
    (input : PyInput) : Except String (List String × List String × List String) :=
  match input with
  | .nonStr => .error "Input must be a string."
  | .str text =>
      let hits := SDG_keys.filter (fun item => search item.SDG_keywords text)
      .ok ((hits.map (fun item => goalIdOf item.SDG_id)).dedup,
           (hits.map (fun item => item.SDG_id)).dedup,
           (hits.map (fun item => item.match_type)).dedup)

/-- `id_sus` as a state-passing computation over the process-wide catalog:
the source loop only reads `item["SDG_id"]`, `item["SDG_keywords"]` and
`item["match_type"]` and never assigns to `SDG_keys` or its items, so the
catalog component is returned unchanged. -/
def id_sus_run (search : String → String → Bool) (SDG_keys : List Rule)
    (input : PyInput) :
    Except String (List String × List String × List String) × List Rule :=
  (id_sus search SDG_keys input, SDG_keys)

/-- Modelled from the spec: one row of the `see_keys` Dimension Map, whose
data module is not under `src/`. The spec gives the shape
`\x7btarget_id, social: bool-as-int, environmental: bool-as-int, economic:
bool-as-int\x7d`; the source reads it as `sdg_id, soc, env, econ = item[:4]`
and applies `int(...)` to each flag. Flags are modelled as `Nat`
(bool-as-int, nonzero meaning set). -/
structure SeeRow where
  sdg_id : String
  soc : Nat
  env : Nat
  econ : Nat
deriving DecidableEq

/-- `cat_sus(target)` from the source: for every `see_keys` row and every
position `i` of the input list with `target[i] == sdg_id`, add the row's
three integer flags into the accumulator dictionary, then turn each counter
into `True` iff it is `> 0`. The result triple is
(social, environmental, economic). -/
def cat_sus (see_keys : List SeeRow) (target : List String) : Bool × Bool × Bool :=
  let see := see_keys.foldl (fun acc item =>
    target.foldl (fun a t =>
      if t == item.sdg_id then
        (a.1 + item.soc, a.2.1 + item.env, a.2.2 + item.econ)
      else a) acc) ((0, 0, 0) : Nat × Nat × Nat)
  (decide (0 < see.1), decide (0 < see.2.1), decide (0 < see.2.2))

/-- Modelled from the spec: one entry of a description table (`goal_desc` or
`tar_desc`), whose data module is not under `src/`. The spec gives the shape
`\x7bid: string, text: string\x7d`; the source reads `goal_id, desc = item[:2]`
(resp. `tar_id, desc = item[:2]`). -/
structure DescEntry where
  id : String
  desc : String
deriving DecidableEq

/-- `label_sdg(sdg_id)` from the source: for every `goal_desc` table row, for
every position of the input list holding that row's id, append the row's
description. -/
def label_sdg (goal_desc : List DescEntry) (sdg_id : List String) : List String :=
  goal_desc.foldl (fun acc item =>
    sdg_id.foldl (fun a x => if x == item.id then a ++ [item.desc] else a) acc) []

/-- `label_target(target_id)` from the source: same loop structure as
`label_sdg`, over the `tar_desc` table. -/
def label_target (tar_desc : List DescEntry) (target_id : List String) : List String :=
  tar_desc.foldl (fun acc item =>
    target_id.foldl (fun a x => if x == item.id then a ++ [item.desc] else a) acc) []

/-- The claimed ordering of the labelers (spec wording, for comparison with
the source-derived `label_sdg`/`label_target`): descriptions in the order
their ids appear in the INPUT list, each id's table entries grouped together. -/
def label_input_order (table : List DescEntry) (ids : List String) : List String :=
  ids.foldl (fun acc x =>
    table.foldl (fun a item => if x == item.id then a ++ [item.desc] else a) acc) []

/-- `SeeSus.show_rule(sdg_id)` from the source: raise `ValueError` when
`sdg_id` is not among the distinct catalog ids, otherwise print (here:
return) the list of catalog rules with that id. -/
def show_rule (SDG_keys : List Rule) (sdg_id : String) :
    Except String (List Rule) :=
  let ids := (SDG_keys.map (fun item => item.SDG_id)).dedup
  if sdg_id ∉ ids then
    .error "Invalid input. Choose one in the list."
  else
    .ok (SDG_keys.filter (fun d => d.SDG_id == sdg_id))

/-- `SeeSus.edit_rule(sdg_id, new_pattern, match_type)` from the source:
raise `ValueError` when `sdg_id` is not among the distinct catalog ids or
`match_type` is neither "direct" nor "indirect" (leaving the catalog as it
was); otherwise update `item["SDG_keywords"]` to `new_pattern` on every
catalog item whose id and match type both match. Returns the call outcome
together with the resulting catalog state. -/
def edit_rule (SDG_keys : List Rule) (sdg_id new_pattern match_type : String) :
    Except String Unit × List Rule :=
  let ids := (SDG_keys.map (fun item => item.SDG_id)).dedup
  if sdg_id ∉ ids then
    (.error "Invalid input id. Use one in the list.", SDG_keys)
  else if match_type ∉ (["direct", "indirect"] : List String) then
    (.error "Invalid match type. Use direct or indirect.", SDG_keys)
  else
    (.ok (), SDG_keys.map (fun item =>
      if item.SDG_id == sdg_id && item.match_type == match_type then
        { item with SDG_keywords := new_pattern }
      else item))

/-! ## Labeler lemmas -/

/-- The inner labeler loop over the input ids appends one copy of the row's
description per occurrence of the row's id in the input list. -/
theorem labelInner_eq (item : DescEntry) (ids : List String) (acc : List String) :
    ids.foldl (fun a x => if x == item.id then a ++ [item.desc] else a) acc =
      acc ++ (ids.filter (fun x => x == item.id)).map (fun _ => item.desc) := by
  induction ids generalizing acc with
  | nil => simp
  | cons y ys ih =>
      rw [List.foldl_cons]
      by_cases h : (y == item.id) = true
      · rw [if_pos h, ih]
        simp [List.filter_cons, h]
      · rw [if_neg h, ih]
        simp [List.filter_cons, h]

/-- The outer labeler loop over the table produces, in table order, each
row's block of repeated descriptions. -/
theorem labelFold_eq (table : List DescEntry) (ids : List String) (acc : List String) :
    table.foldl (fun acc item =>
      ids.foldl (fun a x => if x == item.id then a ++ [item.desc] else a) acc) acc =
      acc ++ (table.map (fun item =>
        (ids.filter (fun x => x == item.id)).map (fun _ => item.desc))).flatten := by
  induction table generalizing acc with
  | nil => simp
  | cons r rs ih =>
      rw [List.foldl_cons, labelInner_eq, ih]
      simp

/-- Closed form of `label_sdg`: table-order blocks of repeated descriptions. -/
theorem label_sdg_eq (goal_desc : List DescEntry) (sdg_id : List String) :
    label_sdg goal_desc sdg_id =
      (goal_desc.map (fun item =>
        (sdg_id.filter (fun x => x == item.id)).map (fun _ => item.desc))).flatten := by
  unfold label_sdg
  rw [labelFold_eq]
  simp

/-- Closed form of `label_target`: table-order blocks of repeated descriptions. -/
theorem label_target_eq (tar_desc : List DescEntry) (target_id : List String) :
    label_target tar_desc target_id =
      (tar_desc.map (fun item =>
        (target_id.filter (fun x => x == item.id)).map (fun _ => item.desc))).flatten := by
  unfold label_target
  rw [labelFold_eq]
  simp

/-! ## Aggregator lemmas -/

/-- The inner `cat_sus` loop over the input targets adds each flag of a
Dimension Map row once per occurrence of the row's id in the input list. -/
theorem cat_inner (item : SeeRow) (target : List String) (acc : Nat × Nat × Nat) :
    target.foldl (fun a t =>
      if t == item.sdg_id then
        (a.1 + item.soc, a.2.1 + item.env, a.2.2 + item.econ)
      else a) acc =
    (acc.1 + item.soc * target.count item.sdg_id,
     acc.2.1 + item.env * target.count item.sdg_id,
     acc.2.2 + item.econ * target.count item.sdg_id) := by
  induction target generalizing acc with
  | nil => simp
  | cons t ts ih =>
      rw [List.foldl_cons]
      by_cases h : (t == item.sdg_id) = true
      · rw [if_pos h, ih]
        simp only [List.count_cons, h, if_true]
        refine Prod.ext ?_ (Prod.ext ?_ ?_) <;> simp <;> ring
      · rw [if_neg h, ih]
        simp [List.count_cons, h]

/-- Closed form of the `cat_sus` accumulator: each counter is the sum, over
the Dimension Map rows, of the row's flag times the number of occurrences of
the row's id in the input list. -/
theorem cat_fold (see_keys : List SeeRow) (target : List String) (acc : Nat × Nat × Nat) :
    see_keys.foldl (fun acc item =>
      target.foldl (fun a t =>
        if t == item.sdg_id then
          (a.1 + item.soc, a.2.1 + item.env, a.2.2 + item.econ)
        else a) acc) acc =
    (acc.1 + (see_keys.map (fun r => r.soc * target.count r.sdg_id)).sum,
     acc.2.1 + (see_keys.map (fun r => r.env * target.count r.sdg_id)).sum,
     acc.2.2 + (see_keys.map (fun r => r.econ * target.count r.sdg_id)).sum) := by
  induction see_keys generalizing acc with
  | nil => simp
  | cons r rs ih =>
      rw [List.foldl_cons, cat_inner, ih]
      simp only [List.map_cons, List.sum_cons]
      refine Prod.ext ?_ (Prod.ext ?_ ?_) <;> simp <;> ring

/-- A `cat_sus` counter is nonzero exactly when some input target has a
Dimension Map row with that flag nonzero. -/
theorem seeSum_ne_zero_iff (see_keys : List SeeRow) (target : List String)
    (f : SeeRow → Nat) :
    ((see_keys.map (fun r => f r * target.count r.sdg_id)).sum ≠ 0) ↔
      ∃ t ∈ target, ∃ row ∈ see_keys, row.sdg_id = t ∧ f row ≠ 0 := by
  rw [Ne, List.sum_eq_zero_iff]
  push_neg
  constructor
  · rintro ⟨x, hx, hne⟩
    rw [List.mem_map] at hx
    obtain ⟨r, hr, rfl⟩ := hx
    rcases Nat.mul_ne_zero_iff.mp hne with ⟨hf, hc⟩
    have hmem : r.sdg_id ∈ target := by
      by_contra hnm
      exact hc (List.count_eq_zero.mpr hnm)
    exact ⟨r.sdg_id, hmem, r, hr, rfl, hf⟩
  · rintro ⟨t, htmem, row, hrow, rfl, hf⟩
    refine ⟨f row * target.count row.sdg_id, List.mem_map.mpr ⟨row, hrow, rfl⟩, ?_⟩
    have hc : target.count row.sdg_id ≠ 0 := by
      intro h0
      exact absurd htmem (List.count_eq_zero.mp h0)
    exact Nat.mul_ne_zero hf hc

/-- C2: `cat_sus` sets a dimension flag to true iff at least one target id
in the input list has a Dimension Map row with that flag nonzero; on the
empty input list all three flags are false. -/
theorem cat_sus_dimension_flags (see_keys : List SeeRow) (target : List String) :
    ((cat_sus see_keys target).1 = true ↔
      ∃ t ∈ target, ∃ row ∈ see_keys, row.sdg_id = t ∧ row.soc ≠ 0) ∧
    ((cat_sus see_keys target).2.1 = true ↔
      ∃ t ∈ target, ∃ row ∈ see_keys, row.sdg_id = t ∧ row.env ≠ 0) ∧
    ((cat_sus see_keys target).2.2 = true ↔
      ∃ t ∈ target, ∃ row ∈ see_keys, row.sdg_id = t ∧ row.econ ≠ 0) ∧
    cat_sus see_keys [] = (false, false, false) := by
  have hmain : cat_sus see_keys target =
      (decide (0 < (see_keys.map (fun r => r.soc * target.count r.sdg_id)).sum),
       decide (0 < (see_keys.map (fun r => r.env * target.count r.sdg_id)).sum),
       decide (0 < (see_keys.map (fun r => r.econ * target.count r.sdg_id)).sum)) := by
    unfold cat_sus
    rw [cat_fold]
    simp
  refine ⟨?_, ?_, ?_, ?_⟩
  · rw [hmain]
    simp only [decide_eq_true_iff, Nat.pos_iff_ne_zero]
    exact seeSum_ne_zero_iff see_keys target (fun r => r.soc)
  · rw [hmain]
    simp only [decide_eq_true_iff, Nat.pos_iff_ne_zero]
    exact seeSum_ne_zero_iff see_keys target (fun r => r.env)
  · rw [hmain]
    simp only [decide_eq_true_iff, Nat.pos_iff_ne_zero]
    exact seeSum_ne_zero_iff see_keys target (fun r => r.econ)
  · unfold cat_sus
    rw [cat_fold]
    simp

/-! ## Claims about the labelers -/

/-- C8 counterexample: with the table listing SDG1 before SDG2 and the input
listing SDG2 before SDG1, `label_sdg` emits the descriptions in TABLE order
("one" then "two"), not in input order ("two" then "one") as the claim
states, so the claimed input-order property is false. -/
theorem label_sdg_not_input_order :
    label_sdg [⟨"SDG1", "one"⟩, ⟨"SDG2", "two"⟩] ["SDG2", "SDG1"] = ["one", "two"] ∧
    label_input_order [⟨"SDG1", "one"⟩, ⟨"SDG2", "two"⟩] ["SDG2", "SDG1"] = ["two", "one"] ∧
    label_sdg [⟨"SDG1", "one"⟩, ⟨"SDG2", "two"⟩] ["SDG2", "SDG1"] ≠
      label_input_order [⟨"SDG1", "one"⟩, ⟨"SDG2", "two"⟩] ["SDG2", "SDG1"] := by
  refine ⟨by decide, by decide, by decide⟩

/-- C8 (amended): the output order of `label_sdg` and `label_target` is
driven by table iteration order: descriptions appear in the order their rows
appear in the table, each row contributing one consecutive block with one
copy of its description per occurrence of its id in the input list. -/
theorem label_order_table_driven (goal_desc tar_desc : List DescEntry)
    (sdg_id target_id : List String) :
    label_sdg goal_desc sdg_id =
      (goal_desc.map (fun item =>
        (sdg_id.filter (fun x => x == item.id)).map (fun _ => item.desc))).flatten ∧
    label_target tar_desc target_id =
      (tar_desc.map (fun item =>
        (target_id.filter (fun x => x == item.id)).map (fun _ => item.desc))).flatten :=
  ⟨label_sdg_eq goal_desc sdg_id, label_target_eq tar_desc target_id⟩

/-- Restricting an input list to the ids known to the table does not change
any table row's block of the labeler output: an id equal to a table row's id
is always kept by the restriction. -/
theorem filter_known_block (table : List DescEntry) (item : DescEntry)
    (hitem : item ∈ table) (ids : List String) :
    (ids.filter (fun x => decide (x ∈ table.map DescEntry.id))).filter
        (fun x => x == item.id) =
      ids.filter (fun x => x == item.id) := by
  rw [List.filter_filter]
  refine List.filter_congr (fun x hx => ?_)
  by_cases hb : (x == item.id) = true
  · have hxm : x ∈ table.map DescEntry.id :=
      List.mem_map.mpr ⟨item, hitem, (beq_iff_eq.mp hb).symm⟩
    simp [hb, hxm]
  · simp [hb]

/-- C9: the labelers never fail on unknown ids: for every table and input
list, dropping the input ids absent from the table leaves the output
unchanged (an unknown id contributes no entries, even amid known ids), and
in particular an input list of entirely unknown ids labels to the empty
list. -/
theorem label_unknown_ids (goal_desc tar_desc : List DescEntry)
    (sdg_id target_id : List String) :
    label_sdg goal_desc sdg_id =
      label_sdg goal_desc
        (sdg_id.filter (fun x => decide (x ∈ goal_desc.map DescEntry.id))) ∧
    label_target tar_desc target_id =
      label_target tar_desc
        (target_id.filter (fun x => decide (x ∈ tar_desc.map DescEntry.id))) ∧
    ((∀ x ∈ sdg_id, x ∉ goal_desc.map DescEntry.id) →
      label_sdg goal_desc sdg_id = []) ∧
    ((∀ x ∈ target_id, x ∉ tar_desc.map DescEntry.id) →
      label_target tar_desc target_id = []) := by
  refine ⟨?_, ?_, ?_, ?_⟩
  · rw [label_sdg_eq, label_sdg_eq]
    congr 1
    refine List.map_congr_left (fun item hitem => ?_)
    rw [filter_known_block goal_desc item hitem]
  · rw [label_target_eq, label_target_eq]
    congr 1
    refine List.map_congr_left (fun item hitem => ?_)
    rw [filter_known_block tar_desc item hitem]
  · intro hg
    rw [label_sdg_eq]
    rw [List.flatten_eq_nil_iff]
    intro xs hxs
    rw [List.mem_map] at hxs
    obtain ⟨item, hitem, rfl⟩ := hxs
    rw [List.map_eq_nil_iff, List.filter_eq_nil_iff]
    intro x hx hbeq
    exact hg x hx (List.mem_map.mpr ⟨item, hitem, (beq_iff_eq.mp hbeq).symm⟩)
  · intro ht
    rw [label_target_eq]
    rw [List.flatten_eq_nil_iff]
    intro xs hxs
    rw [List.mem_map] at hxs
    obtain ⟨item, hitem, rfl⟩ := hxs
    rw [List.map_eq_nil_iff, List.filter_eq_nil_iff]
    intro x hx hbeq
    exact ht x hx (List.mem_map.mpr ⟨item, hitem, (beq_iff_eq.mp hbeq).symm⟩)

/-- C9 witness: on a mixed known/unknown input the unknown id drops out
without changing the output, and entirely-unknown inputs label to `[]`. -/
theorem label_unknown_ids_witness :
    label_sdg [⟨"SDG1", "one"⟩] ["SDG1", "nope"] =
      label_sdg [⟨"SDG1", "one"⟩]
        ((["SDG1", "nope"] : List String).filter
          (fun x => decide (x ∈ ([⟨"SDG1", "one"⟩] : List DescEntry).map DescEntry.id))) ∧
    label_sdg [⟨"SDG2", "two"⟩] ["nope"] = [] ∧
    label_target [⟨"SDG1_1", "t"⟩] ["nah"] = [] := by
  refine ⟨(label_unknown_ids [⟨"SDG1", "one"⟩] [⟨"SDG1_1", "t"⟩] ["SDG1", "nope"] ["nah"]).1,
    (label_unknown_ids [⟨"SDG2", "two"⟩] [⟨"SDG1_1", "t"⟩] ["nope"] ["nah"]).2.2.1 (by decide),
    (label_unknown_ids [⟨"SDG1", "one"⟩] [⟨"SDG1_1", "t"⟩] ["SDG1", "nope"] ["nah"]).2.2.2 (by decide)⟩

/-- C10: each table row contributes exactly one output entry per occurrence
of its id in the input list, so duplicated input ids yield duplicated
description entries. -/
theorem label_duplicate_ids (goal_desc tar_desc : List DescEntry)
    (sdg_id target_id : List String) :
    (label_sdg goal_desc sdg_id).length =
      (goal_desc.map (fun item => sdg_id.count item.id)).sum ∧
    (label_target tar_desc target_id).length =
      (tar_desc.map (fun item => target_id.count item.id)).sum := by
  constructor
  · rw [label_sdg_eq, List.length_flatten, List.map_map]
    congr 1
    refine List.map_congr_left (fun item _ => ?_)
    show ((sdg_id.filter (fun x => x == item.id)).map (fun _ => item.desc)).length = _
    rw [List.length_map, ← List.countP_eq_length_filter]
    rfl
  · rw [label_target_eq, List.length_flatten, List.map_map]
    congr 1
    refine List.map_congr_left (fun item _ => ?_)
    show ((target_id.filter (fun x => x == item.id)).map (fun _ => item.desc)).length = _
    rw [List.length_map, ← List.countP_eq_length_filter]
    rfl

/-! ## Claims about the matcher -/

/-- C1: the goals returned by `id_sus` are, as a set, exactly the goal-id
prefixes (substring before the first underscore) of the returned targets:
every returned target contributes its prefix and no other goal appears. -/
theorem id_sus_goals_are_target_prefixes (search : String → String → Bool)
    (SDG_keys : List Rule) (text : String) (sdgs targets mts : List String)
    (h : id_sus search SDG_keys (.str text) = .ok (sdgs, targets, mts))
    (g : String) :
    g ∈ sdgs ↔ ∃ t ∈ targets, goalIdOf t = g := by
  simp only [id_sus, Except.ok.injEq, Prod.mk.injEq] at h
  obtain ⟨h1, h2, h3⟩ := h
  subst h1; subst h2
  simp only [List.mem_dedup, List.mem_map]
  constructor
  · rintro ⟨a, ha, rfl⟩
    exact ⟨a.SDG_id, ⟨a, ha, rfl⟩, rfl⟩
  · rintro ⟨t, ⟨a, ha, rfl⟩, hg⟩
    exact ⟨a, ha, hg⟩

/-- C1 witness: on a one-rule catalog whose pattern matches, the goal set
`["SDG1"]` is exactly the prefix set of the target set `["SDG1_1"]`. -/
theorem id_sus_goals_are_target_prefixes_witness :
    ("SDG1" ∈ (["SDG1"] : List String)) ↔
      ∃ t ∈ (["SDG1_1"] : List String), goalIdOf t = "SDG1" :=
  id_sus_goals_are_target_prefixes (fun _ _ => true)
    [⟨"SDG1_1", "p", "direct"⟩] "t" ["SDG1"] ["SDG1_1"] ["direct"] rfl "SDG1"

/-- C3: `id_sus` on a non-string input raises (the source raises
`ValueError("Input must be a string.")`) and produces no result. -/
theorem id_sus_nonstring (search : String → String → Bool) (SDG_keys : List Rule) :
    id_sus search SDG_keys .nonStr = .error "Input must be a string." := rfl

/-- C6: when a target id has both a direct and an indirect rule in the
catalog and both patterns match the text, `id_sus` reports both match types
but lists the target id exactly once. -/
theorem id_sus_no_short_circuit (search : String → String → Bool)
    (SDG_keys : List Rule) (text id p1 p2 : String)
    (sdgs targets mts : List String)
    (h1 : Rule.mk id p1 "direct" ∈ SDG_keys)
    (h2 : Rule.mk id p2 "indirect" ∈ SDG_keys)
    (hm1 : search p1 text = true) (hm2 : search p2 text = true)
    (h : id_sus search SDG_keys (.str text) = .ok (sdgs, targets, mts)) :
    "direct" ∈ mts ∧ "indirect" ∈ mts ∧ targets.count id = 1 := by
  simp only [id_sus, Except.ok.injEq, Prod.mk.injEq] at h
  obtain ⟨hg, ht, hm⟩ := h
  subst ht; subst hm
  have hin1 : Rule.mk id p1 "direct" ∈
      SDG_keys.filter (fun item => search item.SDG_keywords text) :=
    List.mem_filter.mpr ⟨h1, hm1⟩
  have hin2 : Rule.mk id p2 "indirect" ∈
      SDG_keys.filter (fun item => search item.SDG_keywords text) :=
    List.mem_filter.mpr ⟨h2, hm2⟩
  refine ⟨?_, ?_, ?_⟩
  · exact List.mem_dedup.mpr (List.mem_map.mpr ⟨_, hin1, rfl⟩)
  · exact List.mem_dedup.mpr (List.mem_map.mpr ⟨_, hin2, rfl⟩)
  · exact List.count_eq_one_of_mem (List.nodup_dedup _)
      (List.mem_dedup.mpr (List.mem_map.mpr ⟨_, hin1, rfl⟩))

/-- C6 witness: a catalog holding a direct and an indirect rule for
`SDG1_1`, both matching, yields both match types and one `SDG1_1` entry. -/
theorem id_sus_no_short_circuit_witness :
    "direct" ∈ (["direct", "indirect"] : List String) ∧
    "indirect" ∈ (["direct", "indirect"] : List String) ∧
    (["SDG1_1"] : List String).count "SDG1_1" = 1 :=
  id_sus_no_short_circuit (fun _ _ => true)
    [⟨"SDG1_1", "a", "direct"⟩, ⟨"SDG1_1", "b", "indirect"⟩] "t" "SDG1_1" "a" "b"
    ["SDG1"] ["SDG1_1"] ["direct", "indirect"]
    (by decide) (by decide) rfl rfl rfl

/-- C7: `id_sus` is a pure function of the input and the catalog: the
state-passing run leaves the catalog unchanged, and a second run on the
resulting state returns the same result and the same (original) catalog. -/
theorem id_sus_pure (search : String → String → Bool) (SDG_keys : List Rule)
    (input : PyInput) :
    (id_sus_run search SDG_keys input).2 = SDG_keys ∧
    (id_sus_run search (id_sus_run search SDG_keys input).2 input).1 =
      (id_sus_run search SDG_keys input).1 ∧
    (id_sus_run search (id_sus_run search SDG_keys input).2 input).2 = SDG_keys :=
  ⟨rfl, rfl, rfl⟩

/-! ## Claims about the catalog read/update operations -/

/-- Zipping a list with its image under a map relates each element to its
image. -/
theorem zip_map_snd {α : Type} (l : List α) (f : α → α) :
    ∀ p ∈ l.zip (l.map f), p.2 = f p.1 := by
  induction l with
  | nil => simp
  | cons x xs ih =>
      intro p hp
      rw [List.map_cons, List.zip_cons_cons, List.mem_cons] at hp
      rcases hp with h | h
      · rw [h]
      · exact ih p h

/-- C4: `show_rule` and `edit_rule` called with an id outside the
catalog's known-id set raise `ValueError`, `edit_rule` called with a match
type outside direct/indirect raises `ValueError`, and in every such error
case the catalog is left unchanged (`show_rule` never writes it at all). -/
theorem catalog_error_cases (SDG_keys : List Rule) (sdg_id ns mt : String) :
    (sdg_id ∉ SDG_keys.map Rule.SDG_id →
      show_rule SDG_keys sdg_id = .error "Invalid input. Choose one in the list." ∧
      edit_rule SDG_keys sdg_id ns mt =
        (.error "Invalid input id. Use one in the list.", SDG_keys)) ∧
    (mt ∉ (["direct", "indirect"] : List String) →
      (edit_rule SDG_keys sdg_id ns mt).2 = SDG_keys ∧
      ∃ e, (edit_rule SDG_keys sdg_id ns mt).1 = .error e) := by
  constructor
  · intro h
    have h' : sdg_id ∉ (SDG_keys.map (fun item => item.SDG_id)).dedup := by
      intro hm
      exact h (by simpa using List.mem_dedup.mp hm)
    constructor
    · unfold show_rule
      rw [if_pos h']
    · unfold edit_rule
      rw [if_pos h']
  · intro hmt
    by_cases hid : sdg_id ∉ (SDG_keys.map (fun item => item.SDG_id)).dedup
    · unfold edit_rule
      rw [if_pos hid]
      exact ⟨rfl, _, rfl⟩
    · unfold edit_rule
      rw [if_neg hid, if_pos hmt]
      exact ⟨rfl, _, rfl⟩

/-- C4 witness: on the empty catalog with an unknown id and an invalid match
type, both operations report errors and the catalog stays empty. -/
theorem catalog_error_cases_witness :
    (show_rule ([] : List Rule) "SDG1_1" = .error "Invalid input. Choose one in the list." ∧
     edit_rule ([] : List Rule) "SDG1_1" "p" "bogus" =
       (.error "Invalid input id. Use one in the list.", [])) ∧
    ((edit_rule ([] : List Rule) "SDG1_1" "p" "bogus").2 = [] ∧
     ∃ e, (edit_rule ([] : List Rule) "SDG1_1" "p" "bogus").1 = .error e) :=
  ⟨(catalog_error_cases [] "SDG1_1" "p" "bogus").1 (by decide),
   (catalog_error_cases [] "SDG1_1" "p" "bogus").2 (by decide)⟩

/-- C5: a successful `edit_rule` replaces the pattern of exactly the rules
whose id and match type both match (keeping their id and match type), leaves
every other rule untouched, and a subsequent `show_rule` on that id
returns the new pattern for the edited rules. -/
theorem edit_rule_success (SDG_keys : List Rule) (sdg_id ns mt : String)
    (hid : sdg_id ∈ SDG_keys.map Rule.SDG_id)
    (hmt : mt = "direct" ∨ mt = "indirect") :
    (edit_rule SDG_keys sdg_id ns mt).1 = .ok () ∧
    (edit_rule SDG_keys sdg_id ns mt).2.length = SDG_keys.length ∧
    (∀ p ∈ SDG_keys.zip (edit_rule SDG_keys sdg_id ns mt).2,
      (p.1.SDG_id = sdg_id ∧ p.1.match_type = mt →
        p.2 = { p.1 with SDG_keywords := ns }) ∧
      (¬(p.1.SDG_id = sdg_id ∧ p.1.match_type = mt) → p.2 = p.1)) ∧
    ∃ l, show_rule (edit_rule SDG_keys sdg_id ns mt).2 sdg_id = .ok l ∧
      ∀ r ∈ l, r.SDG_id = sdg_id ∧ (r.match_type = mt → r.SDG_keywords = ns) := by
  have hid' : ¬ sdg_id ∉ (SDG_keys.map (fun item => item.SDG_id)).dedup := by
    rw [not_not, List.mem_dedup]
    simpa using hid
  have hmt' : ¬ mt ∉ (["direct", "indirect"] : List String) := by
    rw [not_not]
    rcases hmt with h | h <;> simp [h]
  have hedit : edit_rule SDG_keys sdg_id ns mt =
      (.ok (), SDG_keys.map (fun item =>
        if item.SDG_id == sdg_id && item.match_type == mt then
          { item with SDG_keywords := ns }
        else item)) := by
    unfold edit_rule
    rw [if_neg hid', if_neg hmt']
  have hidpres : (edit_rule SDG_keys sdg_id ns mt).2.map Rule.SDG_id =
      SDG_keys.map Rule.SDG_id := by
    rw [hedit, List.map_map]
    refine List.map_congr_left (fun r _ => ?_)
    by_cases hc : (r.SDG_id == sdg_id && r.match_type == mt) = true
    · simp [Function.comp, hc]
    · simp [Function.comp, hc]
  refine ⟨by rw [hedit], by rw [hedit]; simp, ?_, ?_⟩
  · intro p hp
    rw [hedit] at hp
    have hpf := zip_map_snd SDG_keys _ p hp
    constructor
    · rintro ⟨hsid, hsmt⟩
      rw [hpf, if_pos (by simp [hsid, hsmt])]
    · intro hneg
      rw [hpf, if_neg ?_]
      intro hc
      rw [Bool.and_eq_true, beq_iff_eq, beq_iff_eq] at hc
      exact hneg hc
  · refine ⟨(edit_rule SDG_keys sdg_id ns mt).2.filter (fun d => d.SDG_id == sdg_id), ?_, ?_⟩
    · unfold show_rule
      rw [if_neg ?_]
      rw [not_not, List.mem_dedup, hidpres]
      simpa using hid
    · intro r hr
      rw [List.mem_filter] at hr
      obtain ⟨hrmem, hrid⟩ := hr
      rw [beq_iff_eq] at hrid
      refine ⟨hrid, ?_⟩
      intro hrmt
      rw [hedit] at hrmem
      simp only [List.mem_map] at hrmem
      obtain ⟨r0, hr0, rfl⟩ := hrmem
      by_cases hc : (r0.SDG_id == sdg_id && r0.match_type == mt) = true
      · rw [if_pos hc]
      · rw [if_neg hc] at hrid hrmt ⊢
        exact absurd (by simp [hrid, hrmt]) hc

/-- C5 witness: editing the indirect rule of `SDG1_1` in a two-rule catalog
succeeds, rewrites only that rule's pattern to "new", and `show_rule`
reflects the update. -/
theorem edit_rule_success_witness :
    (edit_rule [⟨"SDG1_1", "a", "direct"⟩, ⟨"SDG1_1", "b", "indirect"⟩]
        "SDG1_1" "new" "indirect").1 = .ok () ∧
    (edit_rule [⟨"SDG1_1", "a", "direct"⟩, ⟨"SDG1_1", "b", "indirect"⟩]
        "SDG1_1" "new" "indirect").2.length =
      ([⟨"SDG1_1", "a", "direct"⟩, ⟨"SDG1_1", "b", "indirect"⟩] : List Rule).length ∧
    (∀ p ∈ ([⟨"SDG1_1", "a", "direct"⟩, ⟨"SDG1_1", "b", "indirect"⟩] : List Rule).zip
        (edit_rule [⟨"SDG1_1", "a", "direct"⟩, ⟨"SDG1_1", "b", "indirect"⟩]
          "SDG1_1" "new" "indirect").2,
      (p.1.SDG_id = "SDG1_1" ∧ p.1.match_type = "indirect" →
        p.2 = { p.1 with SDG_keywords := "new" }) ∧
      (¬(p.1.SDG_id = "SDG1_1" ∧ p.1.match_type = "indirect") → p.2 = p.1)) ∧
    ∃ l, show_rule (edit_rule [⟨"SDG1_1", "a", "direct"⟩, ⟨"SDG1_1", "b", "indirect"⟩]
        "SDG1_1" "new" "indirect").2 "SDG1_1" = .ok l ∧
      ∀ r ∈ l, r.SDG_id = "SDG1_1" ∧ (r.match_type = "indirect" → r.SDG_keywords = "new") :=
  edit_rule_success [⟨"SDG1_1", "a", "direct"⟩, ⟨"SDG1_1", "b", "indirect"⟩]
    "SDG1_1" "new" "indirect" (by decide) (Or.inr rfl)

end Seesus
